import Mathlib

/-!
Verification of the runsh script runner (`src/script_runner/cli_runner.py`).

The development shallowly embeds the pure logic of the script runner:
text is modelled as `List Char` (named `Str` below), the Python dict
metadata as structures (`ArgSpec`, `OptSpec`, `CommandMeta`), and each
Python function as a Lean function with the same behaviour:

* `findSplit` embeds leftmost-occurrence substring search, the primitive
  behind Python's `in`, `str.split` and the anchored regex substitutions
  used by the runner (the patterns involved are plain literals or
  deterministic once the leftmost-match rule is applied).
* `removeBlocksF` embeds
  `re.sub(r"# <SCRIPT-RUNNER>.*?# </SCRIPT-RUNNER>\n", "", content, flags=re.DOTALL)`:
  repeatedly find the leftmost start marker, then the first
  end-marker-plus-newline after it, delete the span, and continue after
  the deleted span.  The fuel argument strictly exceeds the remaining
  length on every recursive call, so the fuel never runs out.
* `transformContent` embeds the pure text transformation of
  `ScriptCommand._create_temp_script` (block removal, block generation,
  insertion after the user-setting marker / shebang / at the start).
* `matchOptionDecl` embeds the anchored regex
  `# @option ([^,]+)(?:,(\w+))?(\s+\[([^\]]+)\])?\s*:\s*(.*)`
  with Python's greedy backtracking order (longest candidate first for
  `[^,]+` and `\w+`; optional groups try the present alternative first).
-/

namespace RunSh

/-- Script text is a list of characters. -/
abbrev Str := List Char

/-- Start marker of the injected runner block. -/
def startMarker : Str := "# <SCRIPT-RUNNER>".data

/-- End marker of the injected runner block (without trailing newline). -/
def endMarker : Str := "# </SCRIPT-RUNNER>".data

/-- The user-setting marker comment searched for by the transformer. -/
def userSettingMarker : Str := "# USER SETTING".data

/-- Leftmost-occurrence search: `findSplit pat s = some (pre, post)` when
`s = pre ++ pat ++ post` with `pre` shortest possible, `none` when `pat`
does not occur in `s`.  This is the primitive behind Python's `in`,
`str.split` and leftmost regex matching for literal patterns. -/
def findSplit (pat : Str) : Str → Option (Str × Str)
  | [] => if pat.isPrefixOf [] then some ([], []) else none
  | c :: t =>
    if pat.isPrefixOf (c :: t) then some ([], (c :: t).drop pat.length)
    else (findSplit pat t).map (fun pq => (c :: pq.1, pq.2))

/-- Python's `pat in s` substring test. -/
def pyContains (pat s : Str) : Bool := (findSplit pat s).isSome

theorem findSplit_nil (pat : Str) (h : pat ≠ []) : findSplit pat [] = none := by
  simp [findSplit, List.isPrefixOf_iff_prefix, h]

theorem findSplit_cons (pat : Str) (c : Char) (t : Str) :
    findSplit pat (c :: t) =
      if pat.isPrefixOf (c :: t) then some ([], (c :: t).drop pat.length)
      else (findSplit pat t).map (fun pq => (c :: pq.1, pq.2)) := rfl

/-- A successful split decomposes the text. -/
theorem findSplit_eq_append {pat s p q : Str} (h : findSplit pat s = some (p, q)) :
    s = p ++ pat ++ q := by
  induction s generalizing p q with
  | nil =>
    by_cases hp : pat = []
    · subst hp
      simp [findSplit] at h
      obtain ⟨h1, h2⟩ := h
      subst h1; subst h2; rfl
    · rw [findSplit_nil pat hp] at h
      exact absurd h (by simp)
  | cons c t ih =>
    rw [findSplit_cons] at h
    by_cases hpre : pat.isPrefixOf (c :: t)
    · rw [if_pos hpre] at h
      obtain ⟨hp, hq⟩ := by simpa using h
      rw [List.isPrefixOf_iff_prefix] at hpre
      obtain ⟨r, hr⟩ := hpre
      subst hp
      have hdrop : (c :: t).drop pat.length = r := by
        rw [← hr, List.drop_left]
      rw [← hq, hdrop, List.nil_append, hr]
    · rw [if_neg hpre] at h
      cases hfs : findSplit pat t with
      | none => rw [hfs] at h; exact absurd h (by simp)
      | some pq =>
        rw [hfs] at h
        obtain ⟨p', q'⟩ := pq
        simp at h
        obtain ⟨hp, hq⟩ := h
        have := ih hfs
        rw [← hp, ← hq, this]
        simp

/-- If the text admits no decomposition around the pattern, the search fails. -/
theorem findSplit_eq_none_of (pat s : Str) (h : ∀ a b : Str, s ≠ a ++ pat ++ b) :
    findSplit pat s = none := by
  induction s with
  | nil =>
    have hp : pat ≠ [] := by
      intro he
      exact h [] [] (by simp [he])
    exact findSplit_nil pat hp
  | cons c t ih =>
    rw [findSplit_cons]
    have hpre : ¬ pat.isPrefixOf (c :: t) := by
      rw [List.isPrefixOf_iff_prefix]
      rintro ⟨r, hr⟩
      exact h [] r (by simp [hr.symm])
    rw [if_neg hpre]
    have ht : findSplit pat t = none := by
      apply ih
      intro a b hab
      exact h (c :: a) b (by simp [hab])
    simp [ht]

/-- Conversely, a failed search means no decomposition exists. -/
theorem ne_append_of_findSplit_eq_none {pat s : Str} (h : findSplit pat s = none)
    (a b : Str) : s ≠ a ++ pat ++ b := by
  intro he
  induction a generalizing s with
  | nil =>
    cases s with
    | nil =>
      have : pat = [] ∧ b = [] := by
        constructor
        · cases pat with
          | nil => rfl
          | cons x xs => simp at he
        · cases pat with
          | nil => simpa using he.symm
          | cons x xs => simp at he
      rw [this.1] at h
      simp [findSplit] at h
    | cons c t =>
      rw [findSplit_cons] at h
      have hpre : pat.isPrefixOf (c :: t) := by
        rw [List.isPrefixOf_iff_prefix]
        exact ⟨b, by simpa using he.symm⟩
      rw [if_pos hpre] at h
      exact absurd h (by simp)
  | cons x a' ih =>
    cases s with
    | nil => simp at he
    | cons c t =>
      rw [findSplit_cons] at h
      by_cases hpre : pat.isPrefixOf (c :: t)
      · rw [if_pos hpre] at h; exact absurd h (by simp)
      · rw [if_neg hpre] at h
        have ht : findSplit pat t = none := by
          cases hfs : findSplit pat t with
          | none => rfl
          | some pq => rw [hfs] at h; simp at h
        simp at he
        exact ih ht (by rw [List.append_assoc]; exact he.2)

/-- Search fails whenever the pattern holds a character absent from the text. -/
theorem findSplit_eq_none_of_not_mem {c : Char} {pat s : Str}
    (hc : c ∈ pat) (hs : c ∉ s) : findSplit pat s = none := by
  apply findSplit_eq_none_of
  intro a b hab
  exact hs (hab ▸ (by simp [hc] : c ∈ a ++ pat ++ b))

/-- Search succeeds at a marked decomposition provided the pattern is nonempty
and starts at no earlier position. -/
theorem findSplit_append (pat a b : Str) (hp : pat ≠ [])
    (h : ∀ a₁ a₂ : Str, a = a₁ ++ a₂ → a₂ ≠ [] → ¬ pat.isPrefixOf (a₂ ++ pat ++ b)) :
    findSplit pat (a ++ pat ++ b) = some (a, b) := by
  induction a with
  | nil =>
    cases hps : pat with
    | nil => exact absurd hps hp
    | cons p ps =>
      rw [← hps]
      have hpre : pat.isPrefixOf (pat ++ b) := by
        rw [List.isPrefixOf_iff_prefix]; exact ⟨b, rfl⟩
      have : pat ++ b = p :: (ps ++ b) := by rw [hps]; simp
      simp only [List.nil_append]
      rw [this, findSplit_cons, ← this, if_pos hpre, List.drop_left]
  | cons x a' ih =>
    have hs : (x :: a') ++ pat ++ b = x :: (a' ++ pat ++ b) := by simp
    rw [hs, findSplit_cons]
    have hpre : ¬ pat.isPrefixOf (x :: (a' ++ pat ++ b)) := by
      have := h [] (x :: a') rfl (by simp)
      simpa using this
    rw [if_neg hpre]
    have ih' : findSplit pat (a' ++ pat ++ b) = some (a', b) := by
      apply ih
      intro a₁ a₂ ha12 hne
      exact h (x :: a₁) a₂ (by simp [ha12]) hne
    rw [ih']
    rfl

/-- Occurrences of a pattern beginning with `c` lie past any `c`-free text:
from `u ++ w = x ++ (c :: p) ++ y` with `c ∉ u`, the occurrence sits inside
`w`. -/
theorem occurrence_past {c : Char} {u w x y p : Str} (hc : c ∉ u)
    (he : u ++ w = x ++ (c :: p) ++ y) :
    ∃ x₂ : Str, x = u ++ x₂ ∧ w = x₂ ++ (c :: p) ++ y := by
  induction u generalizing x with
  | nil => exact ⟨x, rfl, by simpa using he⟩
  | cons d u' ih =>
    cases x with
    | nil =>
      simp at he
      have : c ∈ d :: u' := by rw [← he.1]; exact List.mem_cons_self d u'
      exact absurd this hc
    | cons d' x' =>
      simp at he
      obtain ⟨hd, he'⟩ := he
      have hcu' : c ∉ u' := fun hm => hc (List.mem_cons_of_mem d hm)
      obtain ⟨x₂, hx, hw⟩ := ih hcu' (by simpa using he')
      exact ⟨x₂, by simp [hd.symm, hx], hw⟩

/-- One pass of
`re.sub(r"# <SCRIPT-RUNNER>.*?# </SCRIPT-RUNNER>\n", "", content, flags=re.DOTALL)`:
find the leftmost start marker, the first end-marker-plus-newline after it
(the non-greedy `.*?` under DOTALL picks the earliest end), delete the whole
span and continue scanning after it.  Fuelled recursion: each step removes at
least the markers, so fuel exceeding the text length never runs out. -/
def removeBlocksF : Nat → Str → Str
  | 0, s => s
  | fuel + 1, s =>
    match findSplit startMarker s with
    | none => s
    | some (pre, rest) =>
      match findSplit (endMarker ++ ['\n']) rest with
      | none => s
      | some (_, post) => pre ++ removeBlocksF fuel post

/-- The runner-block removal step of `_create_temp_script`. -/
def removeBlocks (s : Str) : Str := removeBlocksF (s.length + 1) s

/-- Python's `s.split(pat)` for a nonempty literal separator: cut at each
leftmost occurrence and continue after it.  Fuelled like `removeBlocksF`. -/
def splitOnSubF : Nat → Str → Str → List Str
  | 0, _, s => [s]
  | fuel + 1, pat, s =>
    match findSplit pat s with
    | none => [s]
    | some (pre, post) => pre :: splitOnSubF fuel pat post

/-- `content.split("# USER SETTING")`. -/
def splitUserSetting (s : Str) : List Str := splitOnSubF (s.length + 1) userSettingMarker s

/-- Number of non-overlapping leftmost occurrences of `pat` in `s`
(`s.count(pat)` in Python): one less than the number of split parts. -/
def countOccurrences (pat s : Str) : Nat := (splitOnSubF (s.length + 1) pat s).length - 1

/-- Python's `s.split("\n")`. -/
def splitNl : Str → List Str
  | [] => [[]]
  | c :: t =>
    if c = '\n' then [] :: splitNl t
    else
      match splitNl t with
      | [] => [[c]]
      | h :: r => (c :: h) :: r

/-- Python's `"\n".flatten(parts)`. -/
def joinNl : List Str → Str
  | [] => []
  | [x] => x
  | x :: y :: r => x ++ '\n' :: joinNl (y :: r)

/-- The whitespace class of Python's `str.strip()` and of `\s` (ASCII part). -/
def isPySpace (c : Char) : Bool :=
  c = ' ' || c = '\t' || c = '\n' || c = '\r' || c = '\x0b' || c = '\x0c'

/-- Python's `s.strip()`: drop whitespace from both ends. -/
def pyStrip (s : Str) : Str :=
  ((s.dropWhile isPySpace).reverse.dropWhile isPySpace).reverse

/-- An `@arg` entry of the parsed metadata dict: keys `name`, `description`,
`optional` (absent key read back as `False`), `default` (absent key read back
as `None`). -/
structure ArgSpec where
  name : Str
  description : Str := []
  optional : Bool := false
  default : Option Str := none
deriving DecidableEq

/-- An `@option` entry of the parsed metadata dict: keys `name`, `short`,
`description`, `flag` (absent key read back as `False`), `default` (absent
key read back as `None`). -/
structure OptSpec where
  name : Str
  short : Option Str := none
  description : Str := []
  flag : Bool := false
  default : Option Str := none
deriving DecidableEq

/-- The metadata dict produced by `parse_script_metadata`. -/
structure CommandMeta where
  description : Option Str := none
  args : List ArgSpec := []
  options : List OptSpec := []
deriving DecidableEq

/-- `name.replace("-", "_").upper()`: the shell variable name derived from a
declared option or argument name. -/
def normVarName (n : Str) : Str :=
  (n.map (fun c => if c = '-' then '_' else c)).map Char.toUpper

/-- The binding line `_create_temp_script` generates for one option
(lines 153-168 of `cli_runner.py`).  The Python f-string
`f"{var_name}=${{${var_name}:-${{CLI_{var_name}:-{default}}}}}\n"` expands
`{{`/`}}` to literal braces and `{var_name}` to the variable, so the
non-flag lines carry a literal `$` right after the first `${`. -/
def optionBindingLine (o : OptSpec) : Str :=
  if o.flag then
    normVarName o.name ++ "=$\x7bCLI_".data ++ normVarName o.name ++ ":-0\x7d\n".data
  else if o.default.getD [] = [] then
    normVarName o.name ++ "=$\x7b$".data ++ normVarName o.name ++ ":-$\x7bCLI_".data ++
      normVarName o.name ++ "\x7d\x7d\n".data
  else
    normVarName o.name ++ "=$\x7b$".data ++ normVarName o.name ++ ":-$\x7bCLI_".data ++
      normVarName o.name ++ ":-".data ++ o.default.getD [] ++ "\x7d\x7d\n".data

/-- The binding line `_create_temp_script` generates for the `i`-th argument
(1-based), lines 171-174 of `cli_runner.py`:
`f"{var_name}=${{{i}:-{default}}}\n"`. -/
def argBindingLine (i : Nat) (a : ArgSpec) : Str :=
  normVarName a.name ++ "=$\x7b".data ++ (Nat.repr i).data ++ ":-".data ++
    a.default.getD [] ++ "\x7d\n".data

/-- The variable-binding lines of the runner block: one line per option,
then one line per argument (1-based index). -/
def blockBindings (m : CommandMeta) : Str :=
  (m.options.map optionBindingLine).flatten ++
    (m.args.enum.map (fun p => argBindingLine (p.1 + 1) p.2)).flatten

/-- The full runner block generated by `_create_temp_script`
(lines 150-176): start marker, option lines, argument lines, end marker,
blank line. -/
def generateRunnerBlock (m : CommandMeta) : Str :=
  startMarker ++ '\n' :: (blockBindings m ++ endMarker ++ "\n\n".data)

/-- The insertion-point scan of `_create_temp_script` (lines 186-194): the
index of the first line after the user-setting marker that either is a
non-comment non-blank line, or is a comment line `# ...` not mentioning
`USER SETTING`; `0` if no line qualifies. -/
def insertIdxGo (i : Nat) : List Str → Nat
  | [] => 0
  | l :: t =>
    if (pyStrip l ≠ [] ∧ ¬ ("#".data.isPrefixOf (pyStrip l))) ∨
        ("# ".data.isPrefixOf (pyStrip l) ∧ ¬ (pyContains "USER SETTING".data l = true)) then i
    else insertIdxGo (i + 1) t

/-- The insertion stage of `_create_temp_script` (lines 178-216), applied to
the text `c` left by block removal: insert the freshly generated block after
the user-setting marker (at the computed line index of the part following the
first marker), else after a shebang first line, else at the very start. -/
def insertRunnerBlock (c : Str) (m : CommandMeta) : Str :=
  if pyContains userSettingMarker c then
    match splitUserSetting c with
    | p0 :: p1 :: _ =>
      p0 ++ userSettingMarker ++
        joinNl ((splitNl p1).take (insertIdxGo 0 (splitNl p1))) ++ "\n\n".data ++
        generateRunnerBlock m ++
        joinNl ((splitNl p1).drop (insertIdxGo 0 (splitNl p1)))
    | _ => c ++ '\n' :: generateRunnerBlock m
  else
    match splitNl c with
    | [] => generateRunnerBlock m ++ c
    | l0 :: rest =>
      if "#!".data.isPrefixOf l0 then
        l0 ++ "\n\n".data ++ generateRunnerBlock m ++ joinNl rest
      else generateRunnerBlock m ++ c

/-- The pure text transformation of `_create_temp_script` (lines 140-216):
remove any existing runner block, then insert a freshly generated one. -/
def transformContent (content : Str) (m : CommandMeta) : Str :=
  insertRunnerBlock (removeBlocks content) m

/-- The option names cleo reserves (`CLEO_RESERVED_OPTIONS`). -/
def cleoReservedOptions : List Str :=
  ["verbose".data, "quiet".data, "help".data, "version".data,
    "no-interaction".data, "ansi".data, "no-ansi".data]

/-- The shortcut characters cleo reserves (`CLEO_RESERVED_SHORTCUTS`). -/
def cleoReservedShortcuts : List Str :=
  ["v".data, "q".data, "h".data, "V".data, "n".data]

/-- Conflict resolution from the `options` property (lines 61-75): a
reserved long name gains the suffix `-sh`; a truthy shortcut found among
the reserved shortcuts is replaced by `None`. -/
def resolveOptionConflicts (o : OptSpec) : Str × Option Str :=
  let n := if o.name ∈ cleoReservedOptions then o.name ++ "-sh".data else o.name
  let s : Option Str :=
    match o.short with
    | none => none
    | some sh => if sh ≠ [] ∧ sh ∈ cleoReservedShortcuts then none else some sh
  (n, s)

/-- The cleo `argument(...)` descriptor built by the `arguments` property. -/
structure CleoArgument where
  name : Str
  description : Str
  optional : Bool
  default : Option Str
deriving DecidableEq

/-- The `arguments` property of `ScriptCommand` (lines 39-55) for one
declared argument: a present default makes the argument optional regardless
of the declared `optional`, and the default is forwarded exactly when the
argument ends up optional. -/
def buildArgument (a : ArgSpec) : CleoArgument :=
  let hasDefault := a.default.isSome
  let isOpt := a.optional || hasDefault
  { name := a.name
    description := a.description
    optional := isOpt
    default := if isOpt then a.default else none }

/-- Outcome of `subprocess.run`: either the child exits with a return code,
or launching/running it raises. -/
inductive SubprocessOutcome where
  | exits (code : Int)
  | raises (msg : Str)
deriving DecidableEq

/-- The state `handle` manipulates: whether the materialized temp script
file currently exists. -/
structure HandleState where
  tempFileExists : Bool
deriving DecidableEq

/-- Python `try ... finally`: run the body, then always run the finalizer,
and propagate the body's result or exception. -/
def runTryFinally {α σ : Type} (body : σ → Except Str α × σ) (finalizer : σ → σ)
    (s : σ) : Except Str α × σ :=
  let r := body s
  (r.1, finalizer r.2)

/-- The `subprocess.run` call inside `handle`: returns `result.returncode`
or raises; the temp file is untouched. -/
def subprocessStep (outcome : SubprocessOutcome) (s : HandleState) :
    Except Str Int × HandleState :=
  match outcome with
  | .exits code => (.ok code, s)
  | .raises m => (.error m, s)

/-- The `finally` clause of `handle` (lines 135-138):
`if os.path.exists(temp_script): os.unlink(temp_script)`. -/
def cleanupStep (s : HandleState) : HandleState :=
  if s.tempFileExists then { tempFileExists := false } else s

/-- The execution tail of `handle` (lines 127-138): the temp script has just
been materialized (so it exists), the child is run inside `try`, and the
`finally` clause unlinks the file on every exit path. -/
def handleExecute (outcome : SubprocessOutcome) : Except Str Int × HandleState :=
  runTryFinally (subprocessStep outcome) cleanupStep { tempFileExists := true }

/-- The argument-collection loop of `handle` (lines 101-105): walk the
declared arguments in order, read each CLI value, and append it when truthy
(`if value:`), skipping `None` and the empty string. -/
def collectScriptArguments (defs : List ArgSpec) (argValue : Str → Option Str) : List Str :=
  match defs with
  | [] => []
  | d :: t =>
    match argValue d.name with
    | some v =>
      if v ≠ [] then v :: collectScriptArguments t argValue
      else collectScriptArguments t argValue
    | none => collectScriptArguments t argValue

/-- Python's `\w` on ASCII input: letters, digits and underscore. -/
def isWordChar (c : Char) : Bool := c.isAlphanum || c = '_'

/-- Match `\s+\[([^\]]+)\]` at the start of `s`, returning the bracket's
inner text and the remainder.  The greedy runs are forced: fewer spaces
would put a space where `[` must stand, and a shorter `[^\]]+` would put a
non-`]` character where `]` must stand, so backtracking cannot produce a
different split. -/
def matchBracketGroup (s : Str) : Option (Str × Str) :=
  let sp := s.takeWhile isPySpace
  if sp = [] then none
  else
    match s.drop sp.length with
    | '[' :: r =>
      let inner := r.takeWhile (· ≠ ']')
      if inner = [] then none
      else
        match r.drop inner.length with
        | ']' :: r2 => some (inner, r2)
        | _ => none
    | _ => none

/-- Match `\s*:\s*(.*)` at the start of `s`, returning the description
group.  `\s*` before `:` is forced (a shorter run would put a space where
`:` must stand); `.` does not match a newline, so the greedy `(.*)` stops
at the first newline (parsed lines are stripped and contain none). -/
def matchColonDesc (s : Str) : Option Str :=
  let r := s.drop (s.takeWhile isPySpace).length
  match r with
  | ':' :: r1 =>
    let r2 := r1.drop (r1.takeWhile isPySpace).length
    some (r2.takeWhile (· ≠ '\n'))
  | _ => none

/-- Match `(\s+\[([^\]]+)\])?\s*:\s*(.*)`: the optional bracket group is
tried first (greedy `?`), falling back to the group being absent. -/
def matchModsTail (s : Str) : Option (Option Str × Str) :=
  match matchBracketGroup s with
  | some (mods, r) =>
    match matchColonDesc r with
    | some d => some (some mods, d)
    | none => (matchColonDesc s).map (fun d => (none, d))
  | none => (matchColonDesc s).map (fun d => (none, d))

/-- Try the shortcut candidates for `(\w+)` after the comma, longest first:
`k` bounds the candidate length, all candidates being prefixes of the
maximal word-character run. -/
def tryShortLens (r2 : Str) : Nat → Option (Option Str × Option Str × Str)
  | 0 => none
  | k + 1 =>
    match matchModsTail (r2.drop (k + 1)) with
    | some (mods, d) => some (some (r2.take (k + 1)), mods, d)
    | none => tryShortLens r2 k

/-- Match `(?:,(\w+))?(\s+\[([^\]]+)\])?\s*:\s*(.*)`: the comma-shortcut
group is tried first (greedy `?`, `\w+` longest first), falling back to the
group being absent. -/
def matchShortTail (rest1 : Str) : Option (Option Str × Option Str × Str) :=
  (match rest1 with
    | ',' :: r2 => tryShortLens r2 (r2.takeWhile isWordChar).length
    | _ => none) <|>
  (matchModsTail rest1).map (fun p => (none, p.1, p.2))

/-- Try the name candidates for `([^,]+)`, longest first: `k` bounds the
candidate length, all candidates being prefixes of the maximal comma-free
run. -/
def tryNameLens (r : Str) : Nat → Option (Str × Option Str × Option Str × Str)
  | 0 => none
  | k + 1 =>
    match matchShortTail (r.drop (k + 1)) with
    | some (sh, mods, d) => some (r.take (k + 1), sh, mods, d)
    | none => tryNameLens r k

/-- The anchored regex of the `@option` branch of `parse_script_metadata`
(line 361): `# @option ([^,]+)(?:,(\w+))?(\s+\[([^\]]+)\])?\s*:\s*(.*)`,
returning `(name, shortcut, modifiers, description)` with Python's greedy
leftmost-longest backtracking order. -/
def matchOptionDecl (line : Str) : Option (Str × Option Str × Option Str × Str) :=
  if "# @option ".data.isPrefixOf line then
    let r := line.drop "# @option ".data.length
    tryNameLens r (r.takeWhile (· ≠ ',')).length
  else none

/-- `re.search(r"default=([^\]]+)", s)` (lines 352 and 376): scan for an
occurrence of `default=` followed by at least one non-`]` character and
return that greedy run.  `default=` cannot overlap itself, so continuing
after a failed occurrence is faithful to the engine's position advance. -/
def searchDefaultValueF : Nat → Str → Option Str
  | 0, _ => none
  | fuel + 1, s =>
    match findSplit "default=".data s with
    | none => none
    | some (_, post) =>
      let v := post.takeWhile (· ≠ ']')
      if v = [] then searchDefaultValueF fuel post else some v

/-- `re.search(r"default=([^\]]+)", s)` with sufficient fuel. -/
def searchDefaultValue (s : Str) : Option Str := searchDefaultValueF (s.length + 1) s

/-- The modifier processing of the `@option` branch (lines 371-385):
`"flag" in modifiers` is checked first and yields a flag with no default;
otherwise `"default=" in modifiers` yields a value option with the searched
default; otherwise a required value option.  Returns `(flag, default)` as
read back from the dict (`opt.get("flag", False)`, `opt.get("default")`). -/
def applyOptionModifiers (mods : Option Str) : Bool × Option Str :=
  match mods with
  | none => (false, none)
  | some m =>
    if pyContains "flag".data m then (true, none)
    else if pyContains "default=".data m then
      match searchDefaultValue m with
      | some d => (false, some d)
      | none => (false, none)
    else (false, none)

/-- The `@option` branch of `parse_script_metadata` (lines 359-387) for one
stripped line: regex match, `name.strip()`, then modifier processing. -/
def parseOptionLine (line : Str) : Option OptSpec :=
  (matchOptionDecl line).map (fun t =>
    let fd := applyOptionModifiers t.2.2.1
    { name := pyStrip t.1
      short := t.2.1
      description := t.2.2.2
      flag := fd.1
      default := fd.2 })

/-- `pat` occurs at the start of no nonempty suffix of `a` continued by `w`. -/
def NoPre (pat a w : Str) : Prop :=
  ∀ a₁ a₂ : Str, a = a₁ ++ a₂ → a₂ ≠ [] → ¬ pat.isPrefixOf (a₂ ++ w)

theorem noPre_append {pat u v w : Str} (h1 : NoPre pat u (v ++ w)) (h2 : NoPre pat v w) :
    NoPre pat (u ++ v) w := by
  intro a₁ a₂ hsplit hne hpre
  rcases List.append_eq_append_iff.mp hsplit with ⟨r, hr1, hr2⟩ | ⟨r, hr1, hr2⟩
  · exact h2 r a₂ hr2 hne hpre
  · cases hrn : r with
    | nil =>
      have hav : a₂ = v := by rw [hr2, hrn]; simp
      exact h2 [] v (by simp) (by rw [← hav]; exact hne) (by rw [← hav]; exact hpre)
    | cons z zs =>
      have hw : a₂ ++ w = r ++ (v ++ w) := by rw [hr2, List.append_assoc]
      exact h1 a₁ r hr1 (by rw [hrn]; simp) (hw ▸ hpre)

theorem noPre_of_hash_head {p u w : Str} (hu : '#' ∉ u) : NoPre ('#' :: p) u w := by
  intro a₁ a₂ hsplit hne hpre
  cases a₂ with
  | nil => exact hne rfl
  | cons z r =>
    have hz : z = '#' := by
      have := hpre
      simp [List.isPrefixOf] at this
      exact this.1.symm
    exact hu (hsplit ▸ (by simp [hz] : '#' ∈ a₁ ++ z :: r))

theorem noPre_hash_block {p u' w : Str} (hu' : '#' ∉ u')
    (hne : ¬ ('#' :: p).isPrefixOf ('#' :: u' ++ w)) : NoPre ('#' :: p) ('#' :: u') w := by
  intro a₁ a₂ hsplit hnee hpre
  cases a₁ with
  | nil =>
    have : a₂ = '#' :: u' := by simpa using hsplit.symm
    rw [this] at hpre
    exact hne (by simpa using hpre)
  | cons z a₁' =>
    cases a₂ with
    | nil => exact hnee rfl
    | cons y r =>
      have hy : y = '#' := by
        have := hpre
        simp [List.isPrefixOf] at this
        exact this.1.symm
      have htail : u' = a₁' ++ y :: r := by
        have := hsplit
        simp at this
        exact this.2
      exact hu' (htail ▸ (by simp [hy] : '#' ∈ a₁' ++ y :: r))

/-- Package `findSplit_append` with a `NoPre` hypothesis. -/
theorem findSplit_append_noPre {pat a b : Str} (hp : pat ≠ [])
    (h : NoPre pat a (pat ++ b)) : findSplit pat (a ++ pat ++ b) = some (a, b) :=
  findSplit_append pat a b hp (fun a₁ a₂ h1 h2 => by
    rw [List.append_assoc]; exact h a₁ a₂ h1 h2)

/-- Package `findSplit_eq_none_of` with a `NoPre` hypothesis. -/
theorem findSplit_none_noPre {pat s : Str} (hp : pat ≠ []) (h : NoPre pat s []) :
    findSplit pat s = none := by
  apply findSplit_eq_none_of
  intro x y he
  refine h x (pat ++ y) (by rw [he, List.append_assoc]) (by
    cases pat with
    | nil => exact absurd rfl hp
    | cons c cs => simp) ?_
  rw [List.isPrefixOf_iff_prefix]
  exact ⟨y ++ [], by simp⟩

/-- The start marker as an exposed character list. -/
theorem startMarker_eq : startMarker = '#' :: ' ' :: '<' :: 'S' :: "CRIPT-RUNNER>".data := by
  decide

/-- The end marker as an exposed character list. -/
theorem endMarker_eq : endMarker = '#' :: ' ' :: '<' :: '/' :: "SCRIPT-RUNNER>".data := by
  decide

/-- The user-setting marker as an exposed character list. -/
theorem userSettingMarker_eq : userSettingMarker = '#' :: ' ' :: "USER SETTING".data := by
  decide

theorem splitNl_append {a : Str} (b : Str) (ha : '\n' ∉ a) :
    splitNl (a ++ '\n' :: b) = a :: splitNl b := by
  induction a with
  | nil => simp [splitNl]
  | cons c t ih =>
    have hc : ¬ c = '\n' := fun he => ha (by simp [he])
    have ht : '\n' ∉ t := fun hm => ha (by simp [hm])
    show splitNl (c :: (t ++ '\n' :: b)) = (c :: t) :: splitNl b
    have hstep : splitNl (c :: (t ++ '\n' :: b)) =
        match splitNl (t ++ '\n' :: b) with
        | [] => [[c]]
        | h :: r => (c :: h) :: r := by
      simp [splitNl, hc]
    rw [ih ht] at hstep
    exact hstep

theorem splitNl_ne_nil (s : Str) : splitNl s ≠ [] := by
  cases s with
  | nil => simp [splitNl]
  | cons c t =>
    by_cases hc : c = '\n'
    · simp [splitNl, hc]
    · simp only [splitNl, if_neg hc]
      cases splitNl t <;> simp

theorem joinNl_splitNl (s : Str) : joinNl (splitNl s) = s := by
  induction s with
  | nil => rfl
  | cons c t ih =>
    by_cases hc : c = '\n'
    · subst hc
      simp only [splitNl, if_pos rfl]
      cases hst : splitNl t with
      | nil => exact absurd hst (splitNl_ne_nil t)
      | cons h r =>
        simp only [joinNl, List.nil_append]
        rw [← hst, ih]
    · simp only [splitNl, if_neg hc]
      cases hst : splitNl t with
      | nil => exact absurd hst (splitNl_ne_nil t)
      | cons h r =>
        cases r with
        | nil =>
          simp only [joinNl]
          have : joinNl (splitNl t) = t := ih
          rw [hst] at this
          simp only [joinNl] at this
          rw [this]
        | cons h2 r2 =>
          simp only [joinNl, List.cons_append]
          have : joinNl (splitNl t) = t := ih
          rw [hst] at this
          simp only [joinNl] at this
          rw [this]

theorem digitChar_ne_hash (n : Nat) : Nat.digitChar n ≠ '#' := by
  by_cases hlt : n < 16
  · have h16 : ∀ m : Fin 16, Nat.digitChar m.val ≠ '#' := by decide
    exact h16 ⟨n, hlt⟩
  · have hstar : Nat.digitChar n = '*' := by
      unfold Nat.digitChar
      repeat rw [if_neg (by omega)]
    rw [hstar]; decide

theorem toDigitsCore_no_hash (b : Nat) (f n : Nat) (acc : List Char) (hacc : '#' ∉ acc) :
    '#' ∉ Nat.toDigitsCore b f n acc := by
  induction f generalizing n acc with
  | zero => simpa [Nat.toDigitsCore] using hacc
  | succ f ih =>
    simp only [Nat.toDigitsCore]
    split
    · intro hm
      rcases List.mem_cons.mp hm with h | h
      · exact digitChar_ne_hash _ h.symm
      · exact hacc h
    · exact ih _ _ (by
        intro hm
        rcases List.mem_cons.mp hm with h | h
        · exact digitChar_ne_hash _ h.symm
        · exact hacc h)

theorem repr_no_hash (n : Nat) : '#' ∉ (Nat.repr n).data := by
  show '#' ∉ (List.asString (Nat.toDigits 10 n)).data
  have : (List.asString (Nat.toDigits 10 n)).data = Nat.toDigits 10 n := rfl
  rw [this]
  exact toDigitsCore_no_hash 10 (n + 1) n [] (by simp)

theorem optionBindingLine_no_hash {o : OptSpec} (h1 : '#' ∉ normVarName o.name)
    (h2 : ∀ d, o.default = some d → '#' ∉ d) : '#' ∉ optionBindingLine o := by
  have hd : '#' ∉ o.default.getD [] := by
    cases hdd : o.default with
    | none => simp
    | some d => simpa using h2 d hdd
  unfold optionBindingLine
  split
  · intro hm
    simp only [List.mem_append] at hm
    rcases hm with ((hm | hm) | hm) | hm
    · exact h1 hm
    · revert hm; decide
    · exact h1 hm
    · revert hm; decide
  · split
    · intro hm
      simp only [List.mem_append] at hm
      rcases hm with ((((hm | hm) | hm) | hm) | hm) | hm
      · exact h1 hm
      · revert hm; decide
      · exact h1 hm
      · revert hm; decide
      · exact h1 hm
      · revert hm; decide
    · intro hm
      simp only [List.mem_append] at hm
      rcases hm with ((((((hm | hm) | hm) | hm) | hm) | hm) | hm) | hm
      · exact h1 hm
      · revert hm; decide
      · exact h1 hm
      · revert hm; decide
      · exact h1 hm
      · revert hm; decide
      · exact hd hm
      · revert hm; decide

theorem argBindingLine_no_hash {i : Nat} {a : ArgSpec} (h1 : '#' ∉ normVarName a.name)
    (h2 : ∀ d, a.default = some d → '#' ∉ d) : '#' ∉ argBindingLine i a := by
  have hd : '#' ∉ a.default.getD [] := by
    cases hdd : a.default with
    | none => simp
    | some d => simpa using h2 d hdd
  unfold argBindingLine
  intro hm
  simp only [List.mem_append] at hm
  rcases hm with ((((hm | hm) | hm) | hm) | hm) | hm
  · exact h1 hm
  · revert hm; decide
  · exact repr_no_hash i hm
  · revert hm; decide
  · exact hd hm
  · revert hm; decide

/-- A hypothesis package: `'#'` occurs in neither the derived variable names
nor the declared defaults of the schema. -/
def SchemaHashFree (m : CommandMeta) : Prop :=
  (∀ o ∈ m.options, '#' ∉ normVarName o.name ∧ ∀ d, o.default = some d → '#' ∉ d) ∧
  (∀ a ∈ m.args, '#' ∉ normVarName a.name ∧ ∀ d, a.default = some d → '#' ∉ d)

instance (m : CommandMeta) : Decidable (SchemaHashFree m) := by
  unfold SchemaHashFree
  exact instDecidableAnd

theorem blockBindings_no_hash {m : CommandMeta} (h : SchemaHashFree m) :
    '#' ∉ blockBindings m := by
  unfold blockBindings
  intro hm
  rcases List.mem_append.mp hm with hm | hm
  · obtain ⟨l, hl, hcl⟩ := List.mem_flatten.mp hm
    obtain ⟨o, ho, rfl⟩ := List.mem_map.mp hl
    exact optionBindingLine_no_hash (h.1 o ho).1 (h.1 o ho).2 hcl
  · obtain ⟨l, hl, hcl⟩ := List.mem_flatten.mp hm
    obtain ⟨p, hp, rfl⟩ := List.mem_map.mp hl
    have hpa : p.2 ∈ m.args := List.getElem?_mem (List.mem_enum_iff_getElem?.mp hp)
    exact argBindingLine_no_hash (h.2 p.2 hpa).1 (h.2 p.2 hpa).2 hcl

/-- No pattern of shape `'#' :: c₂ :: p` with `c₂ ≠ '!'` starts inside
`'#' :: '!' :: u''` (hash-free tail) regardless of continuation. -/
theorem noPre_pat_shebang (c₂ : Char) (p u'' w : Str) (h2 : c₂ ≠ '!')
    (hu : '#' ∉ u'') : NoPre ('#' :: c₂ :: p) ('#' :: '!' :: u'') w := by
  apply noPre_hash_block (by simpa using hu)
  simp [List.isPrefixOf, h2]

/-- Such a pattern does not occur at all in a shebang text with hash-free
remainder. -/
theorem findSplit_none_shebang (c₂ : Char) (p r : Str) (h2 : c₂ ≠ '!')
    (hr : '#' ∉ r) : findSplit ('#' :: c₂ :: p) ('#' :: '!' :: r) = none := by
  apply findSplit_none_noPre (by simp)
  exact noPre_pat_shebang c₂ p r [] h2 hr

/-- The end marker (with or without extra trailing text) does not start
inside the start marker. -/
theorem noPre_endM_startM (q w : Str) :
    NoPre (endMarker ++ q) startMarker w := by
  rw [startMarker_eq, endMarker_eq]
  apply noPre_hash_block (by decide)
  simp [List.isPrefixOf]

/-- The start marker does not start inside the end marker. -/
theorem noPre_startM_endM (w : Str) : NoPre startMarker endMarker w := by
  rw [startMarker_eq, endMarker_eq]
  apply noPre_hash_block (by decide)
  simp [List.isPrefixOf]

theorem removeBlocksF_of_none {s : Str} (f : Nat)
    (h : findSplit startMarker s = none) : removeBlocksF f s = s := by
  cases f with
  | zero => rfl
  | succ f => simp only [removeBlocksF, h]

theorem removeBlocksF_step {s pre rest mid post : Str} (f : Nat)
    (h1 : findSplit startMarker s = some (pre, rest))
    (h2 : findSplit (endMarker ++ ['\n']) rest = some (mid, post)) :
    removeBlocksF (f + 1) s = pre ++ removeBlocksF f post := by
  simp only [removeBlocksF, h1, h2]

theorem splitOnSubF_of_none {pat s : Str} (f : Nat)
    (h : findSplit pat s = none) : splitOnSubF f pat s = [s] := by
  cases f with
  | zero => rfl
  | succ f => simp only [splitOnSubF, h]

theorem splitOnSubF_step {pat s pre post : Str} (f : Nat)
    (h : findSplit pat s = some (pre, post)) :
    splitOnSubF (f + 1) pat s = pre :: splitOnSubF f pat post := by
  simp only [splitOnSubF, h]

/-- Block removal is the identity on shebang scripts with hash-free body. -/
theorem removeBlocks_shebang (l0 r : Str) (hl0 : '#' ∉ l0) (hr : '#' ∉ r) :
    removeBlocks ('#' :: '!' :: l0 ++ '\n' :: r) = '#' :: '!' :: l0 ++ '\n' :: r := by
  apply removeBlocksF_of_none
  rw [startMarker_eq]
  exact findSplit_none_shebang _ _ _ (by decide) (by
    intro hm
    rcases List.mem_append.mp hm with hm | hm
    · exact hl0 hm
    · rcases List.mem_cons.mp hm with hm | hm
      · exact absurd hm (by decide)
      · exact hr hm)

/-- The start marker does not start inside `endMarker ++ q` for hash-free `q`. -/
theorem noPre_startM_endM_app (q w : Str) (hq : '#' ∉ q) :
    NoPre startMarker (endMarker ++ q) w := by
  apply noPre_append
  · exact noPre_startM_endM (q ++ w)
  · rw [startMarker_eq]
    exact noPre_of_hash_head hq

/-- Removing blocks from a transformed shebang script deletes the injected
block up to the first newline of its trailing blank line. -/
theorem removeBlocks_transformed (l0 tailp : Str) (m : CommandMeta)
    (hl0h : '#' ∉ l0) (htail : '#' ∉ tailp) (hm : SchemaHashFree m) :
    removeBlocks (('#' :: '!' :: l0) ++ "\n\n".data ++ generateRunnerBlock m ++ tailp) =
      ('#' :: '!' :: l0) ++ "\n\n".data ++ '\n' :: tailp := by
  have hbind := blockBindings_no_hash hm
  have hT : ('#' :: '!' :: l0) ++ "\n\n".data ++ generateRunnerBlock m ++ tailp =
      ('#' :: '!' :: (l0 ++ "\n\n".data)) ++ startMarker ++
        (('\n' :: blockBindings m) ++ (endMarker ++ ['\n']) ++ ('\n' :: tailp)) := by
    simp [generateRunnerBlock, List.append_assoc, List.cons_append,
      show "\n\n".data = ['\n', '\n'] from rfl]
  have hl0nn : '#' ∉ l0 ++ "\n\n".data := by
    intro hmm
    rcases List.mem_append.mp hmm with hmm | hmm
    · exact hl0h hmm
    · exact absurd hmm (by decide)
  have h1 : findSplit startMarker
      (('#' :: '!' :: (l0 ++ "\n\n".data)) ++ startMarker ++
        (('\n' :: blockBindings m) ++ (endMarker ++ ['\n']) ++ ('\n' :: tailp))) =
      some ('#' :: '!' :: (l0 ++ "\n\n".data),
        ('\n' :: blockBindings m) ++ (endMarker ++ ['\n']) ++ ('\n' :: tailp)) := by
    apply findSplit_append_noPre (by rw [startMarker_eq]; simp)
    rw [startMarker_eq]
    exact noPre_pat_shebang _ _ _ _ (by decide) hl0nn
  have h2 : findSplit (endMarker ++ ['\n'])
      (('\n' :: blockBindings m) ++ (endMarker ++ ['\n']) ++ ('\n' :: tailp)) =
      some ('\n' :: blockBindings m, '\n' :: tailp) := by
    apply findSplit_append_noPre (by rw [endMarker_eq]; simp)
    rw [endMarker_eq]
    simp only [List.cons_append]
    apply noPre_of_hash_head
    intro hmm
    rcases List.mem_cons.mp hmm with hmm | hmm
    · exact absurd hmm (by decide)
    · exact hbind hmm
  rw [hT]
  unfold removeBlocks
  rw [removeBlocksF_step _ h1 h2]
  rw [removeBlocksF_of_none _ (findSplit_eq_none_of_not_mem (c := '#')
    (by rw [startMarker_eq]; simp) (by
      intro hmm
      rcases List.mem_cons.mp hmm with hmm | hmm
      · exact absurd hmm (by decide)
      · exact htail hmm))]
  simp [List.append_assoc, List.cons_append,
    show "\n\n".data = ['\n', '\n'] from rfl]

theorem noPre_endM_plain_startM (w : Str) : NoPre endMarker startMarker w := by
  rw [startMarker_eq, endMarker_eq]
  apply noPre_hash_block (by decide)
  simp [List.isPrefixOf]

/-- A transformed shebang script contains exactly one start marker. -/
theorem countOccurrences_startM_transformed (l0 tailp : Str) (m : CommandMeta)
    (hl0h : '#' ∉ l0) (htail : '#' ∉ tailp) (hm : SchemaHashFree m) :
    countOccurrences startMarker
      (('#' :: '!' :: l0) ++ "\n\n".data ++ generateRunnerBlock m ++ tailp) = 1 := by
  have hbind := blockBindings_no_hash hm
  have hT : ('#' :: '!' :: l0) ++ "\n\n".data ++ generateRunnerBlock m ++ tailp =
      ('#' :: '!' :: (l0 ++ "\n\n".data)) ++ startMarker ++
        (('\n' :: blockBindings m) ++ (endMarker ++ ['\n']) ++ ('\n' :: tailp)) := by
    simp [generateRunnerBlock, List.append_assoc, List.cons_append,
      show "\n\n".data = ['\n', '\n'] from rfl]
  have hl0nn : '#' ∉ l0 ++ "\n\n".data := by
    intro hmm
    rcases List.mem_append.mp hmm with hmm | hmm
    · exact hl0h hmm
    · exact absurd hmm (by decide)
  have h1 : findSplit startMarker
      (('#' :: '!' :: (l0 ++ "\n\n".data)) ++ startMarker ++
        (('\n' :: blockBindings m) ++ (endMarker ++ ['\n']) ++ ('\n' :: tailp))) =
      some ('#' :: '!' :: (l0 ++ "\n\n".data),
        ('\n' :: blockBindings m) ++ (endMarker ++ ['\n']) ++ ('\n' :: tailp)) := by
    apply findSplit_append_noPre (by rw [startMarker_eq]; simp)
    rw [startMarker_eq]
    exact noPre_pat_shebang _ _ _ _ (by decide) hl0nn
  have hnone : findSplit startMarker
      (('\n' :: blockBindings m) ++ (endMarker ++ ['\n']) ++ ('\n' :: tailp)) = none := by
    apply findSplit_none_noPre (by rw [startMarker_eq]; simp)
    apply noPre_append
    · apply noPre_append
      · rw [startMarker_eq]
        apply noPre_of_hash_head
        intro hmm
        rcases List.mem_cons.mp hmm with hmm | hmm
        · exact absurd hmm (by decide)
        · exact hbind hmm
      · exact noPre_startM_endM_app ['\n'] _ (by decide)
    · rw [startMarker_eq]
      apply noPre_of_hash_head
      intro hmm
      rcases List.mem_cons.mp hmm with hmm | hmm
      · exact absurd hmm (by decide)
      · exact htail hmm
  unfold countOccurrences
  rw [hT, splitOnSubF_step _ h1, splitOnSubF_of_none _ hnone]
  rfl

/-- A transformed shebang script contains exactly one end marker. -/
theorem countOccurrences_endM_transformed (l0 tailp : Str) (m : CommandMeta)
    (hl0h : '#' ∉ l0) (htail : '#' ∉ tailp) (hm : SchemaHashFree m) :
    countOccurrences endMarker
      (('#' :: '!' :: l0) ++ "\n\n".data ++ generateRunnerBlock m ++ tailp) = 1 := by
  have hbind := blockBindings_no_hash hm
  have hT : ('#' :: '!' :: l0) ++ "\n\n".data ++ generateRunnerBlock m ++ tailp =
      (('#' :: '!' :: (l0 ++ "\n\n".data)) ++ startMarker ++ ('\n' :: blockBindings m)) ++
        endMarker ++ ('\n' :: '\n' :: tailp) := by
    simp [generateRunnerBlock, List.append_assoc, List.cons_append,
      show "\n\n".data = ['\n', '\n'] from rfl]
  have hl0nn : '#' ∉ l0 ++ "\n\n".data := by
    intro hmm
    rcases List.mem_append.mp hmm with hmm | hmm
    · exact hl0h hmm
    · exact absurd hmm (by decide)
  have h1 : findSplit endMarker
      ((('#' :: '!' :: (l0 ++ "\n\n".data)) ++ startMarker ++ ('\n' :: blockBindings m)) ++
        endMarker ++ ('\n' :: '\n' :: tailp)) =
      some (('#' :: '!' :: (l0 ++ "\n\n".data)) ++ startMarker ++ ('\n' :: blockBindings m),
        '\n' :: '\n' :: tailp) := by
    apply findSplit_append_noPre (by rw [endMarker_eq]; simp)
    apply noPre_append
    · apply noPre_append
      · rw [endMarker_eq]
        exact noPre_pat_shebang _ _ _ _ (by decide) hl0nn
      · exact noPre_endM_plain_startM _
    · rw [endMarker_eq]
      apply noPre_of_hash_head
      intro hmm
      rcases List.mem_cons.mp hmm with hmm | hmm
      · exact absurd hmm (by decide)
      · exact hbind hmm
  have hnone : findSplit endMarker ('\n' :: '\n' :: tailp) = none := by
    apply findSplit_eq_none_of_not_mem (c := '#') (by rw [endMarker_eq]; simp)
    intro hmm
    rcases List.mem_cons.mp hmm with hmm | hmm
    · exact absurd hmm (by decide)
    · rcases List.mem_cons.mp hmm with hmm | hmm
      · exact absurd hmm (by decide)
      · exact htail hmm
  unfold countOccurrences
  rw [hT, splitOnSubF_step _ h1, splitOnSubF_of_none _ hnone]
  rfl

/-- The insertion stage on a shebang script whose remainder is hash-free:
the block lands right after the shebang line, separated by a blank line, and
everything else is kept. -/
theorem insertRunnerBlock_shebang (l0 rest2 : Str) (m : CommandMeta)
    (hl0n : '\n' ∉ l0) (hl0h : '#' ∉ l0) (hrh : '#' ∉ rest2) :
    insertRunnerBlock ('#' :: '!' :: l0 ++ '\n' :: rest2) m =
      ('#' :: '!' :: l0) ++ "\n\n".data ++ generateRunnerBlock m ++ rest2 := by
  have hnomem : '#' ∉ l0 ++ '\n' :: rest2 := by
    intro hm
    rcases List.mem_append.mp hm with hm | hm
    · exact hl0h hm
    · rcases List.mem_cons.mp hm with hm | hm
      · exact absurd hm (by decide)
      · exact hrh hm
  have husm : pyContains userSettingMarker ('#' :: '!' :: l0 ++ '\n' :: rest2) = false := by
    unfold pyContains
    rw [userSettingMarker_eq]
    simp only [List.cons_append]
    rw [findSplit_none_shebang ' ' "USER SETTING".data (l0 ++ '\n' :: rest2)
      (by decide) hnomem]
    rfl
  have hsplitNl : splitNl ('#' :: '!' :: l0 ++ '\n' :: rest2)
      = ('#' :: '!' :: l0) :: splitNl rest2 := by
    have h := splitNl_append (a := '#' :: '!' :: l0) rest2 (by
      intro hm
      rcases List.mem_cons.mp hm with hm | hm
      · exact absurd hm (by decide)
      · rcases List.mem_cons.mp hm with hm2 | hm2
        · exact absurd hm2 (by decide)
        · exact hl0n hm2)
    simpa using h
  have hshe : "#!".data.isPrefixOf ('#' :: '!' :: l0) = true := by
    rw [show "#!".data = ['#', '!'] from rfl]
    simp [List.isPrefixOf]
  unfold insertRunnerBlock
  rw [husm]
  simp only [Bool.false_eq_true, if_false]
  rw [hsplitNl]
  simp only [hshe, if_true]
  rw [joinNl_splitNl]

theorem collectScriptArguments_cons (d : ArgSpec) (t : List ArgSpec) (f : Str → Option Str) :
    collectScriptArguments (d :: t) f =
      (match f d.name with
        | some v =>
          if v ≠ [] then v :: collectScriptArguments t f else collectScriptArguments t f
        | none => collectScriptArguments t f) := rfl

theorem collectScriptArguments_append (xs ys : List ArgSpec) (f : Str → Option Str) :
    collectScriptArguments (xs ++ ys) f =
      collectScriptArguments xs f ++ collectScriptArguments ys f := by
  induction xs with
  | nil => rfl
  | cons d t ih =>
    rw [List.cons_append, collectScriptArguments_cons, collectScriptArguments_cons]
    cases f d.name with
    | none => exact ih
    | some v =>
      by_cases hv : v = []
      · simp [hv, ih]
      · simp [hv, ih]

theorem collectScriptArguments_length_le (xs : List ArgSpec) (f : Str → Option Str) :
    (collectScriptArguments xs f).length ≤ xs.length := by
  induction xs with
  | nil => simp [collectScriptArguments]
  | cons d t ih =>
    rw [collectScriptArguments_cons]
    cases f d.name with
    | none => exact Nat.le_succ_of_le ih
    | some v =>
      by_cases hv : v = []
      · simp only [hv, ne_eq, not_true_eq_false, if_false]
        exact Nat.le_succ_of_le ih
      · simp only [ne_eq, hv, not_false_eq_true, if_true, List.length_cons]
        exact Nat.succ_le_succ ih

theorem collectScriptArguments_length_lt (xs : List ArgSpec) (f : Str → Option Str)
    (h : ∃ p ∈ xs, f p.name = none ∨ f p.name = some []) :
    (collectScriptArguments xs f).length < xs.length := by
  induction xs with
  | nil => simp at h
  | cons d t ih =>
    rw [collectScriptArguments_cons]
    obtain ⟨p, hp, hfp⟩ := h
    rcases List.mem_cons.mp hp with rfl | hp
    · rcases hfp with hfp | hfp
      · rw [hfp]
        exact Nat.lt_succ_of_le (collectScriptArguments_length_le t f)
      · rw [hfp]
        simp only [ne_eq, not_true_eq_false, if_false]
        exact Nat.lt_succ_of_le (collectScriptArguments_length_le t f)
    · have hlt := ih ⟨p, hp, hfp⟩
      cases f d.name with
      | none => exact Nat.lt_succ_of_lt hlt
      | some v =>
        by_cases hv : v = []
        · simp only [hv, ne_eq, not_true_eq_false, if_false]
          exact Nat.lt_succ_of_lt hlt
        · simp only [ne_eq, hv, not_false_eq_true, if_true, List.length_cons]
          exact Nat.succ_lt_succ hlt

/-- A sample schema: one flag option `debug` and one argument `file`,
matching the refactored test-suite scenario. -/
def exampleMeta : CommandMeta where
  options := [{ name := "debug".data, flag := true }]
  args := [{ name := "file".data }]

/-- The option record produced by parsing `# @option debug [flag]: Enable debug`. -/
def debugFlagParsed : OptSpec where
  name := "debug [flag]".data
  short := none
  description := "Enable debug".data
  flag := false
  default := none

/-- Claim C1: the spec says the non-flag binding line is exactly
`V=$\x7bV:-$\x7bCLI_V:-D\x7d\x7d` (`V=$\x7bV:-$\x7bCLI_V\x7d\x7d` without a default).
The code's f-string emits a stray `$` after the first brace, producing
`V=$\x7b$V:-$\x7bCLI_V:-D\x7d\x7d`, which in bash is a bad substitution and never
consults the ambient variable `V`; so the claim describes the intent (stated
in the code's own comment) and the code deviates from it. -/
theorem claim_C1_nonflag_binding_line :
    optionBindingLine { name := "name".data, default := some "x".data } =
      "NAME=$\x7b$NAME:-$\x7bCLI_NAME:-x\x7d\x7d\n".data ∧
    optionBindingLine { name := "name".data, default := some "x".data } ≠
      "NAME=$\x7bNAME:-$\x7bCLI_NAME:-x\x7d\x7d\n".data ∧
    optionBindingLine { name := "name".data } =
      "NAME=$\x7b$NAME:-$\x7bCLI_NAME\x7d\x7d\n".data ∧
    optionBindingLine { name := "name".data } ≠
      "NAME=$\x7bNAME:-$\x7bCLI_NAME\x7d\x7d\n".data :=
  ⟨by decide, by decide, by decide, by decide⟩

/-- Claim C2 (counterexample): applying the transformation twice with the same
schema is not byte-identical to applying it once — on the shebang script
`#!/bin/bash\necho hi\n` the second pass re-inserts the block with two extra
newline characters left over from removing the first block. -/
theorem claim_C2_counterexample :
    transformContent (transformContent "#!/bin/bash\necho hi\n".data exampleMeta)
        exampleMeta ≠
      transformContent "#!/bin/bash\necho hi\n".data exampleMeta := by
  decide

/-- Claim C2 (amended): for a shebang script `#!l0\nbody` whose remainder
contains no `#` and a schema whose derived variable names and defaults
contain no `#`, the twice-transformed text still holds exactly one start
marker and one end marker, but equals the once-transformed text with two
extra newline characters inserted at the removed block's site (byte-identity
fails, as the counterexample shows). -/
theorem claim_C2_twice_one_block (l0 body : Str) (m : CommandMeta)
    (hl0n : '\n' ∉ l0) (hl0h : '#' ∉ l0) (hbh : '#' ∉ body) (hm : SchemaHashFree m) :
    transformContent (('#' :: '!' :: l0) ++ '\n' :: body) m =
      ('#' :: '!' :: l0) ++ "\n\n".data ++ generateRunnerBlock m ++ body ∧
    transformContent (transformContent (('#' :: '!' :: l0) ++ '\n' :: body) m) m =
      ('#' :: '!' :: l0) ++ "\n\n".data ++ generateRunnerBlock m ++ '\n' :: '\n' :: body ∧
    countOccurrences startMarker
      (transformContent (transformContent (('#' :: '!' :: l0) ++ '\n' :: body) m) m) = 1 ∧
    countOccurrences endMarker
      (transformContent (transformContent (('#' :: '!' :: l0) ++ '\n' :: body) m) m) = 1 := by
  have hbody2 : '#' ∉ ('\n' :: '\n' :: body : Str) := by
    intro hmm
    rcases List.mem_cons.mp hmm with hmm | hmm
    · exact absurd hmm (by decide)
    · rcases List.mem_cons.mp hmm with hmm | hmm
      · exact absurd hmm (by decide)
      · exact hbh hmm
  have ht1 : transformContent (('#' :: '!' :: l0) ++ '\n' :: body) m =
      ('#' :: '!' :: l0) ++ "\n\n".data ++ generateRunnerBlock m ++ body := by
    unfold transformContent
    rw [removeBlocks_shebang l0 body hl0h hbh]
    exact insertRunnerBlock_shebang l0 body m hl0n hl0h hbh
  have ht2 : transformContent
      (('#' :: '!' :: l0) ++ "\n\n".data ++ generateRunnerBlock m ++ body) m =
      ('#' :: '!' :: l0) ++ "\n\n".data ++ generateRunnerBlock m ++ '\n' :: '\n' :: body := by
    unfold transformContent
    rw [removeBlocks_transformed l0 body m hl0h hbh hm]
    have hshape : (('#' :: '!' :: l0) ++ "\n\n".data ++ '\n' :: body : Str) =
        ('#' :: '!' :: l0) ++ '\n' :: ('\n' :: '\n' :: body) := by
      simp [show "\n\n".data = ['\n', '\n'] from rfl, List.append_assoc, List.cons_append]
    rw [hshape]
    exact insertRunnerBlock_shebang l0 ('\n' :: '\n' :: body) m hl0n hl0h hbody2
  refine ⟨ht1, ?_, ?_, ?_⟩
  · rw [ht1]; exact ht2
  · rw [ht1, ht2]
    exact countOccurrences_startM_transformed l0 ('\n' :: '\n' :: body) m hl0h hbody2 hm
  · rw [ht1, ht2]
    exact countOccurrences_endM_transformed l0 ('\n' :: '\n' :: body) m hl0h hbody2 hm

/-- Claim C2 (amended), witnessed on `#!/bin/bash\necho hi\n` with the sample
schema. -/
theorem claim_C2_twice_one_block_witness :
    ('\n' ∉ "/bin/bash".data ∧ '#' ∉ "/bin/bash".data ∧ '#' ∉ "echo hi\n".data ∧
      SchemaHashFree exampleMeta) ∧
    (transformContent (('#' :: '!' :: "/bin/bash".data) ++ '\n' :: "echo hi\n".data)
        exampleMeta =
      ('#' :: '!' :: "/bin/bash".data) ++ "\n\n".data ++ generateRunnerBlock exampleMeta ++
        "echo hi\n".data ∧
    transformContent (transformContent
        (('#' :: '!' :: "/bin/bash".data) ++ '\n' :: "echo hi\n".data) exampleMeta)
        exampleMeta =
      ('#' :: '!' :: "/bin/bash".data) ++ "\n\n".data ++ generateRunnerBlock exampleMeta ++
        '\n' :: '\n' :: "echo hi\n".data ∧
    countOccurrences startMarker
      (transformContent (transformContent
        (('#' :: '!' :: "/bin/bash".data) ++ '\n' :: "echo hi\n".data) exampleMeta)
        exampleMeta) = 1 ∧
    countOccurrences endMarker
      (transformContent (transformContent
        (('#' :: '!' :: "/bin/bash".data) ++ '\n' :: "echo hi\n".data) exampleMeta)
        exampleMeta) = 1) :=
  ⟨⟨by decide, by decide, by decide, by decide⟩,
    claim_C2_twice_one_block "/bin/bash".data "echo hi\n".data exampleMeta
      (by decide) (by decide) (by decide) (by decide)⟩

/-- Claim C3: the spec says `# @option debug [flag]: <text>` parses as a flag
option named `debug` whose binding line is `DEBUG=$\x7bCLI_DEBUG:-0\x7d`.  The
greedy `([^,]+)` of the option regex swallows ` [flag]` into the name when no
shortcut is declared, so the parser returns name `debug [flag]` with
`isFlag = false`, and the generated block does not contain the claimed line. -/
theorem claim_C3_flag_without_shortcut :
    parseOptionLine "# @option debug [flag]: Enable debug".data = some debugFlagParsed ∧
    optionBindingLine debugFlagParsed =
      "DEBUG [FLAG]=$\x7b$DEBUG [FLAG]:-$\x7bCLI_DEBUG [FLAG]\x7d\x7d\n".data ∧
    pyContains "DEBUG=$\x7bCLI_DEBUG:-0\x7d".data
      (generateRunnerBlock { options := [debugFlagParsed] }) = false :=
  ⟨by decide, by decide, by decide⟩

/-- Claim C4: conflict resolution is total and deterministic — a reserved
long name gains the fixed suffix `-sh` and is never suppressed, a reserved
shortcut is suppressed, and unreserved names and shortcuts pass through. -/
theorem claim_C4_conflict_resolution (o : OptSpec) :
    (o.name ∈ cleoReservedOptions →
      (resolveOptionConflicts o).1 = o.name ++ "-sh".data) ∧
    (o.name ∉ cleoReservedOptions → (resolveOptionConflicts o).1 = o.name) ∧
    (∀ sh, o.short = some sh → sh ≠ [] → sh ∈ cleoReservedShortcuts →
      (resolveOptionConflicts o).2 = none) ∧
    (∀ sh, o.short = some sh → sh ∉ cleoReservedShortcuts →
      (resolveOptionConflicts o).2 = some sh) := by
  refine ⟨fun h => by simp [resolveOptionConflicts, h],
    fun h => by simp [resolveOptionConflicts, h],
    fun sh hsh hne hres => by simp [resolveOptionConflicts, hsh, hne, hres],
    fun sh hsh hres => by simp [resolveOptionConflicts, hsh, hres]⟩

/-- Claim C4, witnessed on the spec's scenario D: option `help` with shortcut
`h` resolves to CLI name `help-sh` with the shortcut suppressed. -/
theorem claim_C4_conflict_resolution_witness :
    ("help".data ∈ cleoReservedOptions ∧ "h".data ∈ cleoReservedShortcuts ∧
      ("h".data : Str) ≠ []) ∧
    resolveOptionConflicts { name := "help".data, short := some "h".data } =
      ("help-sh".data, none) := by
  refine ⟨⟨by decide, by decide, by decide⟩, ?_⟩
  have h := claim_C4_conflict_resolution { name := "help".data, short := some "h".data }
  have h1 := h.1 (by decide)
  have h2 := h.2.2.1 "h".data rfl (by decide) (by decide)
  have happ : ("help".data ++ "-sh".data : Str) = "help-sh".data := by decide
  rw [happ] at h1
  exact Prod.ext h1 h2

/-- Claim C5: whatever the child process does — exit 0, exit non-zero, or
raise — the `finally` clause of `handle` deletes the materialized temp
script, so it no longer exists once `handle` returns or propagates. -/
theorem claim_C5_temp_cleanup (outcome : SubprocessOutcome) :
    (handleExecute outcome).2.tempFileExists = false := by
  cases outcome <;> rfl

/-- Claim C6: the spec says all text outside the replaced block is preserved
byte-for-byte.  With two occurrences of `# USER SETTING` the transformer
splits on the marker and reassembles only the first two parts, deleting
everything after the second occurrence (`TAIL=2` vanishes). -/
theorem claim_C6_second_marker_tail_dropped :
    transformContent "#!/bin/bash\n# USER SETTING\nA=1\n# USER SETTING\nTAIL=2\n".data {} =
      "#!/bin/bash\n# USER SETTING\n\n# <SCRIPT-RUNNER>\n# </SCRIPT-RUNNER>\n\nA=1\n".data ∧
    pyContains "TAIL=2".data
      "#!/bin/bash\n# USER SETTING\nA=1\n# USER SETTING\nTAIL=2\n".data = true ∧
    pyContains "TAIL=2".data
      (transformContent
        "#!/bin/bash\n# USER SETTING\nA=1\n# USER SETTING\nTAIL=2\n".data {}) = false :=
  ⟨by decide, by decide, by decide⟩

/-- Claim C7: an argument with a declared default is built optional for the
CLI regardless of its declared `optional` flag, and carries that default. -/
theorem claim_C7_default_implies_optional (a : ArgSpec) (d : Str)
    (h : a.default = some d) :
    (buildArgument a).optional = true ∧ (buildArgument a).default = some d := by
  constructor <;> simp [buildArgument, h]

/-- Claim C7, witnessed on an argument declared non-optional with default `x`. -/
theorem claim_C7_default_implies_optional_witness :
    ({ name := "file".data, optional := false, default := some "x".data } : ArgSpec).default
        = some "x".data ∧
    (buildArgument { name := "file".data, optional := false, default := some "x".data }).optional
        = true ∧
    (buildArgument { name := "file".data, optional := false, default := some "x".data }).default
        = some "x".data :=
  ⟨rfl, claim_C7_default_implies_optional _ "x".data rfl⟩

/-- Claim C8: when the modifier text contains both `flag` and `default=`,
the flag check runs first and wins — the option is marked a flag and no
default is recorded. -/
theorem claim_C8_flag_wins (mtext : Str)
    (hflag : pyContains "flag".data mtext = true)
    (hdef : pyContains "default=".data mtext = true) :
    applyOptionModifiers (some mtext) = (true, none) := by
  simp [applyOptionModifiers, hflag]

/-- Claim C8, witnessed on the modifier text `flag default=x`. -/
theorem claim_C8_flag_wins_witness :
    (pyContains "flag".data "flag default=x".data = true ∧
      pyContains "default=".data "flag default=x".data = true) ∧
    applyOptionModifiers (some "flag default=x".data) = (true, none) :=
  ⟨⟨by decide, by decide⟩, claim_C8_flag_wins "flag default=x".data (by decide) (by decide)⟩

/-- Claim C9: `handle` returns the child's exit code as the command result. -/
theorem claim_C9_exit_code (code : Int) :
    (handleExecute (SubprocessOutcome.exits code)).1 = Except.ok code := rfl

/-- Claim C10: the positional arguments passed to the child are the truthy
argument values in declaration order; a falsy value (absent or empty) is
omitted entirely, so a later truthy value slides down to an index strictly
below its declaration position whenever an earlier argument is falsy. -/
theorem claim_C10_falsy_args_skipped (pre post : List ArgSpec) (d : ArgSpec)
    (argValue : Str → Option Str) (v : Str)
    (hv : argValue d.name = some v) (hvne : v ≠ [])
    (hfalsy : ∃ p ∈ pre, argValue p.name = none ∨ argValue p.name = some []) :
    collectScriptArguments (pre ++ d :: post) argValue =
      collectScriptArguments pre argValue ++ v :: collectScriptArguments post argValue ∧
    (collectScriptArguments pre argValue).length < pre.length := by
  constructor
  · rw [collectScriptArguments_append, collectScriptArguments_cons, hv]
    simp [hvne]
  · exact collectScriptArguments_length_lt pre argValue hfalsy

/-- Claim C10, witnessed with a first argument collected as the empty string
and a second collected as `John`: `John` lands at position 0, below its
declaration position 1. -/
theorem claim_C10_falsy_args_skipped_witness :
    ((fun n => if n = "first".data then some ([] : Str) else some "John".data)
        ("second".data : Str) = some "John".data ∧
      ("John".data : Str) ≠ [] ∧
      (∃ p ∈ [({ name := "first".data } : ArgSpec)],
        (fun n => if n = "first".data then some ([] : Str) else some "John".data) p.name
            = none ∨
        (fun n => if n = "first".data then some ([] : Str) else some "John".data) p.name
            = some [])) ∧
    (collectScriptArguments
        ([{ name := "first".data }] ++ ({ name := "second".data } : ArgSpec) :: [])
        (fun n => if n = "first".data then some ([] : Str) else some "John".data) =
      collectScriptArguments [{ name := "first".data }]
        (fun n => if n = "first".data then some ([] : Str) else some "John".data) ++
        "John".data :: collectScriptArguments []
          (fun n => if n = "first".data then some ([] : Str) else some "John".data) ∧
    (collectScriptArguments [{ name := "first".data }]
        (fun n => if n = "first".data then some ([] : Str) else some "John".data)).length <
      ([({ name := "first".data } : ArgSpec)]).length) :=
  ⟨⟨by decide, by decide, by decide⟩,
    claim_C10_falsy_args_skipped [{ name := "first".data }] [] { name := "second".data }
      (fun n => if n = "first".data then some ([] : Str) else some "John".data)
      "John".data (by decide) (by decide) (by decide)⟩

end RunSh
